import Mathlib

/-!
# Verification of the benchmark scoring, aggregation and statistics engine

Shallow embedding of `benchmark/run_benchmark.py`: the result extractor and
scoring logic of `test_contract`, the `wilson_score_interval` function, the
statistical analysis of `perform_statistical_analysis`, the error taxonomy of
`analyze_errors`, and the per-model aggregation of `generate_markdown_table`.

Python floats are modelled as exact rationals (`ℚ`); quantities produced by
library calls involving square roots or distribution functions are modelled
over `ℝ`, with the library functions (`sqrt`, the chi-square statistic,
Fisher's exact test) taken as parameters.
-/

namespace Benchmark

/-- Round a rational to the nearest integer, ties to even: the semantics of
Python's built-in `round` on the values arising in `run_benchmark.py`. -/
def roundHalfEven (q : ℚ) : ℤ :=
  if q - ⌊q⌋ < 1/2 then ⌊q⌋
  else if 1/2 < q - ⌊q⌋ then ⌊q⌋ + 1
  else if ⌊q⌋ % 2 = 0 then ⌊q⌋ else ⌊q⌋ + 1

/-- Python's `round(x, 2)`: round to two decimal places. -/
def round2 (q : ℚ) : ℚ := (roundHalfEven (q * 100) : ℚ) / 100

theorem floor_le_roundHalfEven (q : ℚ) : ⌊q⌋ ≤ roundHalfEven q := by
  unfold roundHalfEven
  split <;> [exact le_refl _; skip]
  split <;> [exact Int.le.intro 1 rfl; skip]
  split <;> [exact le_refl _; exact Int.le.intro 1 rfl]

theorem roundHalfEven_le_ceil (q : ℚ) : roundHalfEven q ≤ ⌈q⌉ := by
  unfold roundHalfEven
  split
  · exact Int.floor_le_ceil q
  · have h1 : ¬ (q - ⌊q⌋ < 1/2) := by assumption
    push_neg at h1
    have h2 : (⌊q⌋ : ℚ) < q := by linarith
    have h3 : (⌊q⌋ : ℚ) < (⌈q⌉ : ℚ) := lt_of_lt_of_le h2 (Int.le_ceil q)
    have h5 : ⌊q⌋ + 1 ≤ ⌈q⌉ := by exact_mod_cast h3
    split
    · exact h5
    · split
      · exact Int.floor_le_ceil q
      · exact h5

theorem roundHalfEven_nonneg {q : ℚ} (h : 0 ≤ q) : 0 ≤ roundHalfEven q :=
  le_trans (by exact_mod_cast Int.le_floor.mpr (by exact_mod_cast h)) (floor_le_roundHalfEven q)

theorem roundHalfEven_le_of_le_int {q : ℚ} {n : ℤ} (h : q ≤ n) : roundHalfEven q ≤ n :=
  le_trans (roundHalfEven_le_ceil q) (Int.ceil_le.mpr h)

theorem roundHalfEven_intCast (n : ℤ) : roundHalfEven (n : ℚ) = n := by
  unfold roundHalfEven
  rw [Int.floor_intCast, if_pos (by rw [sub_self]; norm_num)]

theorem round2_nonneg {q : ℚ} (h : 0 ≤ q) : 0 ≤ round2 q := by
  unfold round2
  have : (0:ℚ) ≤ (roundHalfEven (q * 100) : ℚ) := by
    exact_mod_cast roundHalfEven_nonneg (by positivity)
  positivity

theorem round2_le_intCast {q : ℚ} {n : ℤ} (h : q ≤ n) : round2 q ≤ n := by
  unfold round2
  have h1 : q * 100 ≤ ((n * 100 : ℤ) : ℚ) := by push_cast; linarith
  have h2 : roundHalfEven (q * 100) ≤ n * 100 := roundHalfEven_le_of_le_int h1
  rw [div_le_iff₀ (by norm_num)]
  exact_mod_cast h2

/-- `round2` is the identity on values that already have at most two decimal
places (an integer number of hundredths). -/
theorem round2_eq_self_of_int {q : ℚ} {m : ℤ} (h : q * 100 = m) : round2 q = q := by
  unfold round2
  rw [h, roundHalfEven_intCast, ← h]
  field_simp

/-! ## Text scanning primitives

Raw tool output (`process.stdout + process.stderr`) is modelled as `List Char`.
The regexes of `test_contract` are simple enough that greedy matching with no
backtracking is exact: in both patterns every `\d+` group is followed by a
non-digit literal (or the end of the pattern), so the maximal digit run is the
only viable match. `\d` is modelled as an ASCII digit. -/

/-- If `pat` is a literal prefix of `s`, return the remainder of `s`. -/
def dropLit : List Char → List Char → Option (List Char)
  | [], s => some s
  | _ :: _, [] => none
  | p :: ps, c :: cs => if c = p then dropLit ps cs else none

theorem dropLit_length : ∀ (pat s r : List Char),
    dropLit pat s = some r → s.length = pat.length + r.length := by
  intro pat
  induction pat with
  | nil => intro s r h; simp [dropLit] at h; simp [h]
  | cons p ps ih =>
    intro s r h
    cases s with
    | nil => simp [dropLit] at h
    | cons c cs =>
      simp only [dropLit] at h
      split at h
      · have := ih cs r h
        simp [this]
        omega
      · exact absurd h (by simp)

/-- Read a maximal nonempty run of digits (`\d+`) and return its value and the
remainder (Python's `int` applied to the captured group). -/
def readNat (s : List Char) : Option (ℕ × List Char) :=
  let ds := s.takeWhile Char.isDigit
  if ds.isEmpty then none
  else some (ds.foldl (fun a c => 10 * a + (c.toNat - '0'.toNat)) 0, s.dropWhile Char.isDigit)

/-- Attempt to match
`Test result: OK\. Total tests: (\d+); passed: (\d+); failed: (\d+)`
anchored at the start of `s`, returning the three captured numbers. -/
def matchSummaryAt (s : List Char) : Option (ℕ × ℕ × ℕ) := do
  let s ← dropLit "Test result: OK. Total tests: ".toList s
  let (n, s) ← readNat s
  let s ← dropLit "; passed: ".toList s
  let (p, s) ← readNat s
  let s ← dropLit "; failed: ".toList s
  let (f, _) ← readNat s
  pure (n, p, f)

/-- `re.search` for the test-summary pattern: first match over all start
positions, scanning left to right. -/
def searchSummary : List Char → Option (ℕ × ℕ × ℕ)
  | [] => none
  | c :: rest =>
    match matchSummaryAt (c :: rest) with
    | some r => some r
    | none => searchSummary rest

/-- Python's `pat in s` substring test. -/
def containsSub (pat : List Char) : List Char → Bool
  | [] => pat.isEmpty
  | c :: rest => pat.isPrefixOf (c :: rest) || containsSub pat rest

/-- Left-to-right non-overlapping scan: `skip` is the number of positions
still covered by the previous match; at an uncovered position, a match counts
once and covers its remaining `pat.length - 1` characters. -/
def countAux (pat : List Char) : ℕ → List Char → ℕ
  | _, [] => 0
  | k + 1, _ :: rest => countAux pat k rest
  | 0, c :: rest =>
    if pat.isPrefixOf (c :: rest) then 1 + countAux pat (pat.length - 1) rest
    else countAux pat 0 rest

/-- Python's `s.count(pat)` for a nonempty pattern: non-overlapping
occurrences, scanning left to right and skipping past each match.
(The source only ever counts the pattern `"warning"`.) -/
def countSubstr (pat s : List Char) : ℕ := countAux pat 0 s

/-- Attempt to match `error\[E(\d+)\]` anchored at the start of `s`, returning
the full matched token and the remainder after the match. -/
def matchErrorAt (s : List Char) : Option (List Char × List Char) := do
  let s1 ← dropLit "error[E".toList s
  let (_, s2) ← readNat s1
  let s3 ← dropLit "]".toList s2
  let ds := s1.takeWhile Char.isDigit
  pure ("error[E".toList ++ ds ++ [']'], s3)

/-- Scan for error tokens: `skip` is the number of positions still covered by
the previous match (a match of length `L` found at a position covers the next
`L - 1` positions, so scanning resumes after it). -/
def findallAux : ℕ → List Char → List (List Char)
  | _, [] => []
  | k + 1, _ :: rest => findallAux k rest
  | 0, c :: rest =>
    match matchErrorAt (c :: rest) with
    | some (tok, _) => tok :: findallAux (tok.length - 1) rest
    | none => findallAux 0 rest

/-- `re.findall(r"error\[E\d+\]", output)`: all non-overlapping matches, left
to right, each as the full matched token. -/
def findallCodes (s : List Char) : List (List Char) := findallAux 0 s

/-! ## The per-(model, case) result record and `test_contract` -/

/-- The result dict built by `test_contract`.  Scores are Python floats,
modelled as exact rationals. -/
structure ArtifactResult where
  model : String
  contract : String
  compiles : Bool
  tests_passed : ℕ
  tests_total : ℕ
  tests_expected : ℕ
  warnings : ℕ
  errors : List (List Char)
  compile_score : ℚ
  test_score : ℚ
  quality_score : ℚ
  total_score : ℚ
deriving DecidableEq, Repr

/-- The initial result dict of `test_contract` before any branch runs. -/
def initResult (model contract : String) (expected : ℕ) : ArtifactResult where
  model := model
  contract := contract
  compiles := false
  tests_passed := 0
  tests_total := 0
  tests_expected := expected
  warnings := 0
  errors := []
  compile_score := 0
  test_score := 0
  quality_score := 0
  total_score := 0

/-- Outcome of the external `sui move test` invocation for one (model, case):
the artifact directory may be missing, the subprocess may time out or raise,
or it completes with an exit code and captured stdout/stderr. -/
inductive Invocation where
  | missingDir : Invocation
  | timeout : Invocation
  | failure (msg : List Char) : Invocation
  | completed (returncode : ℤ) (stdout stderr : List Char) : Invocation
deriving DecidableEq

/-- `EXPECTED_TESTS` from the configuration. -/
def EXPECTED_TESTS : String → Option ℕ
  | "0_hello_world" => some 11
  | "1_tipjar" => some 12
  | "2_guestbook" => some 12
  | "3_todo_list" => some 14
  | "4_simple_coin" => some 12
  | "5_counter" => some 14
  | "6_weather_oracle" => some 13
  | _ => none

/-- The order in which Python's `list(set(...))` enumerates a set is
implementation-defined (hash-based, randomised per process).  A set
enumeration is any function producing the distinct elements, in some order:
a permutation of the deduplicated list. -/
def SetEnum (σ : List (List Char) → List (List Char)) : Prop :=
  ∀ l, (σ l).Perm l.dedup

/-- Lines 167–188 of `test_contract`: given the exit code and the combined
output, fill in `compiles`, `compile_score`, the parsed test counts and the
warning count (success path), or the extracted error codes (failure path).
`σ` is the set enumeration used by `list(set(error_codes))`. -/
def extractPhase (σ : List (List Char) → List (List Char))
    (result : ArtifactResult) (rc : ℤ) (output : List Char) : ArtifactResult :=
  if rc = 0 then
    let ra := { result with compiles := true, compile_score := (40 : ℚ) }
    let rb :=
      match searchSummary output with
      | some (n, p, _) => { ra with tests_total := n, tests_passed := p }
      | none => ra
    { rb with warnings := countSubstr "warning".toList output }
  else
    if containsSub "error[E".toList output then
      { result with errors := (σ (findallCodes output)).take 5 }
    else
      result

/-- Lines 190–206 of `test_contract`: compute `test_score`, `quality_score`
and `total_score` from the extracted fields. -/
def scorePhase (r1 : ArtifactResult) : ArtifactResult :=
  let r2 :=
    if r1.tests_expected > 0 then
      { r1 with test_score :=
          round2 ((r1.tests_passed : ℚ) / (r1.tests_expected : ℚ) * 50) }
    else r1
  let r3 :=
    { r2 with quality_score :=
        if r2.warnings = 0 then (10 : ℚ)
        else if r2.warnings ≤ 5 then 7
        else 3 }
  { r3 with total_score := round2 (r3.compile_score + r3.test_score + r3.quality_score) }

/-- `test_contract`, given the invocation outcome.  `expected` is
`EXPECTED_TESTS[contract_name]`.  The error strings attached on the
missing-directory / timeout / exception paths are the literal messages of the
source (the directory message keeps only its fixed prefix, the path being
environment data).  On those three paths the scoring section is never reached:
the early `return` and the `except` handlers leave all scores at zero. -/
def test_contract (σ : List (List Char) → List (List Char))
    (model contract : String) (expected : ℕ) (inv : Invocation) : ArtifactResult :=
  let result := initResult model contract expected
  match inv with
  | .missingDir => { result with errors := ["Directory not found: ".toList] }
  | .timeout => { result with errors := ["Test timeout (>60s)".toList] }
  | .failure msg => { result with errors := ["Error: ".toList ++ msg] }
  | .completed rc stdout stderr =>
    scorePhase (extractPhase σ result rc (stdout ++ stderr))

/-! ### Field lemmas for the two phases -/

theorem scorePhase_preserved (r : ArtifactResult) :
    (scorePhase r).model = r.model ∧ (scorePhase r).contract = r.contract ∧
    (scorePhase r).compiles = r.compiles ∧ (scorePhase r).tests_passed = r.tests_passed ∧
    (scorePhase r).tests_total = r.tests_total ∧
    (scorePhase r).tests_expected = r.tests_expected ∧
    (scorePhase r).warnings = r.warnings ∧ (scorePhase r).errors = r.errors ∧
    (scorePhase r).compile_score = r.compile_score := by
  unfold scorePhase
  split <;> exact ⟨rfl, rfl, rfl, rfl, rfl, rfl, rfl, rfl, rfl⟩

theorem scorePhase_test_score (r : ArtifactResult) :
    (scorePhase r).test_score =
      if 0 < r.tests_expected then
        round2 ((r.tests_passed : ℚ) / (r.tests_expected : ℚ) * 50)
      else r.test_score := by
  unfold scorePhase
  split <;> rename_i h <;> simp [h]

theorem scorePhase_quality_score (r : ArtifactResult) :
    (scorePhase r).quality_score =
      if r.warnings = 0 then (10 : ℚ) else if r.warnings ≤ 5 then 7 else 3 := by
  unfold scorePhase
  split <;> rfl

theorem scorePhase_total_score (r : ArtifactResult) :
    (scorePhase r).total_score =
      round2 (r.compile_score + (scorePhase r).test_score + (scorePhase r).quality_score) := by
  unfold scorePhase
  split <;> rfl

theorem extractPhase_pos {rc : ℤ} (hrc : rc = 0) (σ : List (List Char) → List (List Char))
    (r : ArtifactResult) (output : List Char) :
    (extractPhase σ r rc output).compiles = true ∧
    (extractPhase σ r rc output).compile_score = 40 ∧
    (extractPhase σ r rc output).warnings = countSubstr "warning".toList output ∧
    (extractPhase σ r rc output).errors = r.errors ∧
    (extractPhase σ r rc output).tests_expected = r.tests_expected ∧
    (extractPhase σ r rc output).test_score = r.test_score ∧
    (extractPhase σ r rc output).total_score = r.total_score ∧
    (extractPhase σ r rc output).quality_score = r.quality_score := by
  subst hrc
  unfold extractPhase
  rw [if_pos rfl]
  cases hs : searchSummary output with
  | some t =>
    obtain ⟨n, p, f⟩ := t
    exact ⟨rfl, rfl, rfl, rfl, rfl, rfl, rfl, rfl⟩
  | none => exact ⟨rfl, rfl, rfl, rfl, rfl, rfl, rfl, rfl⟩

theorem extractPhase_pos_passed {rc : ℤ} (hrc : rc = 0) {output : List Char} {n p f : ℕ}
    (hs : searchSummary output = some (n, p, f))
    (σ : List (List Char) → List (List Char)) (r : ArtifactResult) :
    (extractPhase σ r rc output).tests_passed = p ∧
    (extractPhase σ r rc output).tests_total = n := by
  subst hrc
  unfold extractPhase
  rw [if_pos rfl, hs]
  exact ⟨rfl, rfl⟩

theorem extractPhase_pos_nosummary {rc : ℤ} (hrc : rc = 0) {output : List Char}
    (hs : searchSummary output = none)
    (σ : List (List Char) → List (List Char)) (r : ArtifactResult) :
    (extractPhase σ r rc output).tests_passed = r.tests_passed ∧
    (extractPhase σ r rc output).tests_total = r.tests_total := by
  subst hrc
  unfold extractPhase
  rw [if_pos rfl, hs]
  exact ⟨rfl, rfl⟩

theorem extractPhase_neg {rc : ℤ} (hrc : rc ≠ 0) (σ : List (List Char) → List (List Char))
    (r : ArtifactResult) (output : List Char) :
    (extractPhase σ r rc output).compiles = r.compiles ∧
    (extractPhase σ r rc output).compile_score = r.compile_score ∧
    (extractPhase σ r rc output).warnings = r.warnings ∧
    (extractPhase σ r rc output).tests_passed = r.tests_passed ∧
    (extractPhase σ r rc output).tests_total = r.tests_total ∧
    (extractPhase σ r rc output).tests_expected = r.tests_expected ∧
    (extractPhase σ r rc output).test_score = r.test_score ∧
    (extractPhase σ r rc output).total_score = r.total_score ∧
    (extractPhase σ r rc output).quality_score = r.quality_score ∧
    (extractPhase σ r rc output).errors =
      (if containsSub "error[E".toList output then (σ (findallCodes output)).take 5
       else r.errors) := by
  unfold extractPhase
  rw [if_neg hrc]
  split <;> exact ⟨rfl, rfl, rfl, rfl, rfl, rfl, rfl, rfl, rfl, rfl⟩

/-! ### Further rounding helpers -/

theorem round2_intCast (n : ℤ) : round2 (n : ℚ) = n := by
  unfold round2
  rw [show ((n : ℚ) * 100) = ((n * 100 : ℤ) : ℚ) by push_cast; ring, roundHalfEven_intCast]
  push_cast
  field_simp

/-- A rational that is a whole number of hundredths (every score in the
result dict is one). -/
def IsCenti (t : ℚ) : Prop := ∃ k : ℤ, t * 100 = (k : ℚ)

theorem isCenti_round2 (x : ℚ) : IsCenti (round2 x) := by
  refine ⟨roundHalfEven (x * 100), ?_⟩
  unfold round2
  field_simp

theorem isCenti_intCast (n : ℤ) : IsCenti (n : ℚ) := ⟨n * 100, by push_cast; ring⟩

theorem round2_eq_self_of_isCenti {q : ℚ} (h : IsCenti q) : round2 q = q := by
  obtain ⟨k, hk⟩ := h
  exact round2_eq_self_of_int hk

theorem isCenti_add {a b : ℚ} (ha : IsCenti a) (hb : IsCenti b) : IsCenti (a + b) := by
  obtain ⟨m, hm⟩ := ha
  obtain ⟨n, hn⟩ := hb
  exact ⟨m + n, by push_cast; linarith⟩

/-- Evaluate `round2` when the scaled value rounds down. -/
theorem round2_eval_down {x : ℚ} {n : ℤ} (h1 : (n : ℚ) ≤ x * 100)
    (h2 : x * 100 - n < 1/2) : round2 x = (n : ℚ) / 100 := by
  have hf : ⌊x * 100⌋ = n := Int.floor_eq_iff.mpr ⟨h1, by linarith⟩
  unfold round2 roundHalfEven
  rw [hf, if_pos (by linarith)]

/-- Evaluate `round2` when the scaled value rounds up. -/
theorem round2_eval_up {x : ℚ} {n : ℤ} (h1 : (n : ℚ) ≤ x * 100)
    (h2 : 1/2 < x * 100 - n) (h3 : x * 100 < n + 1) :
    round2 x = ((n + 1 : ℤ) : ℚ) / 100 := by
  have hf : ⌊x * 100⌋ = n := Int.floor_eq_iff.mpr ⟨h1, h3⟩
  unfold round2 roundHalfEven
  rw [hf, if_neg (by linarith), if_pos (by linarith)]

/-! ## Claim theorems about `test_contract` -/

/-- Claim C10: when the tool invocation completes with a nonzero exit status
(compile failure), the warning counter is never touched, so the quality tier
is the top one and the artifact still earns `total_score = 10`, not `0`;
whereas a missing output directory, a timeout, or any other invocation
exception leaves every score at `0`. -/
theorem c10_compile_failure_scores_ten (σ : List (List Char) → List (List Char))
    (model contract : String) (e : ℕ) (rc : ℤ) (out err msg : List Char) (hrc : rc ≠ 0) :
    ((test_contract σ model contract e (.completed rc out err)).warnings = 0 ∧
     (test_contract σ model contract e (.completed rc out err)).quality_score = 10 ∧
     (test_contract σ model contract e (.completed rc out err)).compile_score = 0 ∧
     (test_contract σ model contract e (.completed rc out err)).test_score = 0 ∧
     (test_contract σ model contract e (.completed rc out err)).total_score = 10) ∧
    (∀ inv ∈ [Invocation.missingDir, Invocation.timeout, Invocation.failure msg],
      (test_contract σ model contract e inv).compile_score = 0 ∧
      (test_contract σ model contract e inv).test_score = 0 ∧
      (test_contract σ model contract e inv).quality_score = 0 ∧
      (test_contract σ model contract e inv).total_score = 0) := by
  constructor
  · show (scorePhase _).warnings = 0 ∧ _
    obtain ⟨-, -, hw, hp, -, he, ht, -, -, -⟩ :=
      extractPhase_neg hrc σ (initResult model contract e) (out ++ err)
    have hw0 : (extractPhase σ (initResult model contract e) rc (out ++ err)).warnings = 0 := hw
    have hp0 : (extractPhase σ (initResult model contract e) rc (out ++ err)).tests_passed = 0 := hp
    have hc0 : (extractPhase σ (initResult model contract e) rc (out ++ err)).compile_score = 0 :=
      (extractPhase_neg hrc σ (initResult model contract e) (out ++ err)).2.1
    set R := extractPhase σ (initResult model contract e) rc (out ++ err) with hR
    have hpre := scorePhase_preserved R
    have hts : (scorePhase R).test_score = 0 := by
      rw [scorePhase_test_score, hp0, ht]
      split
      · rw [show (((0:ℕ) : ℚ) / (R.tests_expected : ℚ) * 50) = ((0 : ℤ) : ℚ) by push_cast; ring,
          round2_intCast]
        norm_num
      · rfl
    have hqs : (scorePhase R).quality_score = 10 := by
      rw [scorePhase_quality_score, hw0]
      rfl
    refine ⟨hpre.2.2.2.2.2.2.1.trans hw0, hqs, hpre.2.2.2.2.2.2.2.2.trans hc0, hts, ?_⟩
    show (scorePhase R).total_score = 10
    rw [scorePhase_total_score, hc0, hts, hqs,
      show ((0 : ℚ) + 0 + 10) = ((10 : ℤ) : ℚ) by norm_num, round2_intCast]
    norm_num
  · intro inv hinv
    simp only [List.mem_cons, List.mem_singleton, List.not_mem_nil, or_false] at hinv
    rcases hinv with h | h | h <;> subst h <;> exact ⟨rfl, rfl, rfl, rfl⟩

/-- Witness for C10 at a concrete compile-failure invocation. -/
theorem c10_witness :
    ((test_contract List.dedup "solmover" "1_tipjar" 12
        (.completed 1 "error[E03002] boom".toList [])).total_score = 10) ∧
    ((test_contract List.dedup "solmover" "1_tipjar" 12 .timeout).total_score = 0) := by
  have h := c10_compile_failure_scores_ten List.dedup "solmover" "1_tipjar" 12 1
    "error[E03002] boom".toList [] "oops".toList (by decide)
  exact ⟨h.1.2.2.2.2, (h.2 .timeout (by simp)).2.2.2⟩

/-- Claim C1 (amended): for every completed tool invocation the produced result
follows the scoring rubric — `compile_score` is 40 iff `compiles`,
`test_score = round((tests_passed / tests_expected) * 50, 2)` when
`tests_expected > 0`, `quality_score` is the 10/7/3 warning tier, and
`total_score` is exactly the sum of the three (the final rounding is the
identity on it).  The bounds `0 ≤ test_score ≤ 50` and `total_score ≤ 100`
hold only under the extra hypothesis `tests_passed ≤ tests_expected`, which
the code does not enforce (see the counterexample). -/
theorem c1_scoring_rubric (σ : List (List Char) → List (List Char))
    (model contract : String) (e : ℕ) (rc : ℤ) (out err : List Char)
    (r : ArtifactResult) (hr : r = test_contract σ model contract e (.completed rc out err)) :
    (r.compile_score = if r.compiles then 40 else 0) ∧
    (0 < r.tests_expected →
      r.test_score = round2 ((r.tests_passed : ℚ) / (r.tests_expected : ℚ) * 50)) ∧
    (r.quality_score = if r.warnings = 0 then 10 else if r.warnings ≤ 5 then 7 else 3) ∧
    r.total_score = r.compile_score + r.test_score + r.quality_score ∧
    (r.tests_passed ≤ r.tests_expected →
      0 ≤ r.test_score ∧ r.test_score ≤ 50 ∧ r.total_score ≤ 100) := by
  subst hr
  have hT : test_contract σ model contract e (.completed rc out err) =
      scorePhase (extractPhase σ (initResult model contract e) rc (out ++ err)) := rfl
  rw [hT]
  obtain ⟨-, -, hcompiles, hpassed, -, hexp, hwarn, -, hcscore⟩ :=
    scorePhase_preserved (extractPhase σ (initResult model contract e) rc (out ++ err))
  have hts := scorePhase_test_score (extractPhase σ (initResult model contract e) rc (out ++ err))
  have hqs := scorePhase_quality_score (extractPhase σ (initResult model contract e) rc (out ++ err))
  have htot := scorePhase_total_score (extractPhase σ (initResult model contract e) rc (out ++ err))
  have hRf : ((extractPhase σ (initResult model contract e) rc (out ++ err)).compile_score =
        if (extractPhase σ (initResult model contract e) rc (out ++ err)).compiles then 40 else 0) ∧
      (extractPhase σ (initResult model contract e) rc (out ++ err)).test_score = 0 ∧
      ((extractPhase σ (initResult model contract e) rc (out ++ err)).compile_score = 40 ∨
       (extractPhase σ (initResult model contract e) rc (out ++ err)).compile_score = 0) := by
    by_cases hrc : rc = 0
    · obtain ⟨h1, h2, -, -, -, h3, -, -⟩ :=
        extractPhase_pos hrc σ (initResult model contract e) (out ++ err)
      refine ⟨?_, h3, Or.inl h2⟩
      rw [h1, h2]
      norm_num
    · obtain ⟨h1, h2, -, -, -, -, h3, -, -, -⟩ :=
        extractPhase_neg hrc σ (initResult model contract e) (out ++ err)
      refine ⟨?_, h3, Or.inr h2⟩
      rw [h1, h2]
      rfl
  set R := extractPhase σ (initResult model contract e) rc (out ++ err) with hRdef
  have hcenti_t : IsCenti (scorePhase R).test_score := by
    rw [hts]
    split
    · exact isCenti_round2 _
    · rw [hRf.2.1]
      exact ⟨0, by norm_num⟩
  have hq_cases : (scorePhase R).quality_score = 10 ∨ (scorePhase R).quality_score = 7 ∨
      (scorePhase R).quality_score = 3 := by
    rw [hqs]
    split
    · exact Or.inl rfl
    · split
      · exact Or.inr (Or.inl rfl)
      · exact Or.inr (Or.inr rfl)
  have hcenti_q : IsCenti (scorePhase R).quality_score := by
    rcases hq_cases with h | h | h <;> rw [h]
    · exact ⟨1000, by norm_num⟩
    · exact ⟨700, by norm_num⟩
    · exact ⟨300, by norm_num⟩
  have hcenti_c : IsCenti R.compile_score := by
    rcases hRf.2.2 with h | h <;> rw [h]
    · exact ⟨4000, by norm_num⟩
    · exact ⟨0, by norm_num⟩
  have htotal : (scorePhase R).total_score =
      (scorePhase R).compile_score + (scorePhase R).test_score + (scorePhase R).quality_score := by
    rw [htot, hcscore]
    exact round2_eq_self_of_isCenti (isCenti_add (isCenti_add hcenti_c hcenti_t) hcenti_q)
  refine ⟨?_, ?_, ?_, htotal, ?_⟩
  · rw [hcscore, hcompiles]
    exact hRf.1
  · intro hpos
    rw [hexp] at hpos
    rw [hts, if_pos hpos, hpassed, hexp]
  · rw [hqs, hwarn]
  · intro hple
    rw [hpassed, hexp] at hple
    have htb : 0 ≤ (scorePhase R).test_score ∧ (scorePhase R).test_score ≤ 50 := by
      rw [hts]
      split
      · rename_i hpos
        constructor
        · exact round2_nonneg (by positivity)
        · have h1 : ((R.tests_passed : ℚ)) ≤ (R.tests_expected : ℚ) := by exact_mod_cast hple
          have h2 : (0 : ℚ) < (R.tests_expected : ℚ) := by exact_mod_cast hpos
          have h3 : (R.tests_passed : ℚ) / (R.tests_expected : ℚ) * 50 ≤ ((50 : ℤ) : ℚ) := by
            have := (div_le_one h2).mpr h1
            push_cast
            nlinarith
          have h4 := round2_le_intCast h3
          exact le_trans h4 (by norm_num)
      · rw [hRf.2.1]
        norm_num
    refine ⟨htb.1, htb.2, ?_⟩
    rw [htotal, hcscore]
    have hcle : R.compile_score ≤ 40 := by
      rcases hRf.2.2 with h | h <;> rw [h] <;> norm_num
    have hqle : (scorePhase R).quality_score ≤ 10 := by
      rcases hq_cases with h | h | h <;> rw [h] <;> norm_num
    linarith [htb.2]

/-- Claim C1 counterexample: on an output whose summary line reports more passed
tests (12) than the configured `tests_expected` (11), the completed invocation
yields `test_score = 54.55 > 50` and `total_score = 104.55 > 100`, refuting
the claimed bounds `0 ≤ test_score ≤ 50` and `total_score ≤ 100`. -/
theorem c1_counterexample :
    (50 : ℚ) < (test_contract List.dedup "gemini-2.5" "0_hello_world" 11
      (.completed 0 "Test result: OK. Total tests: 12; passed: 12; failed: 0".toList [])).test_score ∧
    (100 : ℚ) < (test_contract List.dedup "gemini-2.5" "0_hello_world" 11
      (.completed 0 "Test result: OK. Total tests: 12; passed: 12; failed: 0".toList [])).total_score := by
  have hs : searchSummary
      ("Test result: OK. Total tests: 12; passed: 12; failed: 0".toList ++ []) =
      some (12, 12, 0) := by decide
  have hw : countSubstr "warning".toList
      ("Test result: OK. Total tests: 12; passed: 12; failed: 0".toList ++ []) = 0 := by decide
  have hT : test_contract List.dedup "gemini-2.5" "0_hello_world" 11
      (.completed 0 "Test result: OK. Total tests: 12; passed: 12; failed: 0".toList []) =
      scorePhase (extractPhase List.dedup (initResult "gemini-2.5" "0_hello_world" 11) 0
        ("Test result: OK. Total tests: 12; passed: 12; failed: 0".toList ++ [])) := rfl
  rw [hT]
  obtain ⟨hp, -⟩ := extractPhase_pos_passed rfl hs List.dedup (initResult "gemini-2.5" "0_hello_world" 11)
  obtain ⟨-, hcs, hwr, -, hexp, -, -, -⟩ :=
    extractPhase_pos rfl List.dedup (initResult "gemini-2.5" "0_hello_world" 11)
      ("Test result: OK. Total tests: 12; passed: 12; failed: 0".toList ++ [])
  set R := extractPhase List.dedup (initResult "gemini-2.5" "0_hello_world" 11) 0
    ("Test result: OK. Total tests: 12; passed: 12; failed: 0".toList ++ []) with hRdef
  have hexp11 : R.tests_expected = 11 := hexp
  have hts : (scorePhase R).test_score = 1091/20 := by
    rw [scorePhase_test_score, if_pos (by rw [hexp11]; norm_num), hp, hexp11]
    rw [round2_eval_up (n := 5454) (by norm_num) (by norm_num) (by norm_num)]
    norm_num
  have hqs : (scorePhase R).quality_score = 10 := by
    rw [scorePhase_quality_score, hwr.trans hw]
    rfl
  have htotal : (scorePhase R).total_score = 2091/20 := by
    rw [scorePhase_total_score, hts, hqs, hcs]
    rw [round2_eq_self_of_int (m := 10455) (by norm_num)]
    norm_num
  rw [hts, htotal]
  norm_num

/-- Witness for C1 at a concrete completed invocation: 9 of 12 expected tests
pass with two warnings, giving `test_score = 37.5` and `total_score = 84.5`. -/
theorem c1_witness :
    (test_contract List.dedup "qwen3-coder" "1_tipjar" 12
      (.completed 0 "warning: a\nwarning: b\nTest result: OK. Total tests: 12; passed: 9; failed: 3".toList [])).test_score =
      round2 ((9 : ℚ) / 12 * 50) ∧
    (0 : ℚ) ≤ (test_contract List.dedup "qwen3-coder" "1_tipjar" 12
      (.completed 0 "warning: a\nwarning: b\nTest result: OK. Total tests: 12; passed: 9; failed: 3".toList [])).test_score ∧
    (test_contract List.dedup "qwen3-coder" "1_tipjar" 12
      (.completed 0 "warning: a\nwarning: b\nTest result: OK. Total tests: 12; passed: 9; failed: 3".toList [])).total_score ≤ 100 := by
  have h := c1_scoring_rubric List.dedup "qwen3-coder" "1_tipjar" 12 0
    "warning: a\nwarning: b\nTest result: OK. Total tests: 12; passed: 9; failed: 3".toList [] _ rfl
  have hp : (test_contract List.dedup "qwen3-coder" "1_tipjar" 12
      (.completed 0 "warning: a\nwarning: b\nTest result: OK. Total tests: 12; passed: 9; failed: 3".toList [])).tests_passed = 9 := by
    decide
  have he : (test_contract List.dedup "qwen3-coder" "1_tipjar" 12
      (.completed 0 "warning: a\nwarning: b\nTest result: OK. Total tests: 12; passed: 9; failed: 3".toList [])).tests_expected = 12 := by
    decide
  refine ⟨?_, ?_, ?_⟩
  · have := h.2.1 (by rw [he]; norm_num)
    rw [this, hp, he]
    norm_num
  · exact (h.2.2.2.2 (by rw [hp, he]; norm_num)).1
  · exact (h.2.2.2.2 (by rw [hp, he]; norm_num)).2.2

/-! ## C4: the warning count -/

/-- Declarative occurrence count: the number of positions of `s` at which
`pat` occurs as a substring (occurrences at every position, including
overlapping ones). -/
def occCount (pat : List Char) : List Char → ℕ
  | [] => 0
  | c :: rest => (if pat.isPrefixOf (c :: rest) then 1 else 0) + occCount pat rest

/-- Case-insensitive occurrence count, following the claim's words ("the
number of case-insensitive occurrences of the substring"): lowercase both
sides, then count as the code does.  Used only to compare the claim against
the source behaviour. -/
def countSubstrCI (pat s : List Char) : ℕ :=
  countSubstr (pat.map Char.toLower) (s.map Char.toLower)

/-- A pattern with no nontrivial border: no proper nonempty prefix of `pat`
is also a suffix of `pat`.  For such patterns the non-overlapping scan count
and the per-position count coincide. -/
def Unbordered (pat : List Char) : Prop :=
  ∀ k, k < pat.length → 0 < k → pat.take (pat.length - k) ≠ pat.drop k

theorem warning_unbordered : Unbordered "warning".toList := by
  unfold Unbordered
  decide

theorem not_prefix_of_unbordered {pat : List Char} (hu : Unbordered pat) {m : ℕ}
    (hm0 : 0 < m) (hmL : m < pat.length) (t : List Char) :
    ¬ pat <+: (pat.drop m ++ t) := by
  intro hpre
  have htp := List.take_prefix (pat.length - m) pat
  have h1 : pat.take (pat.length - m) <+: pat.drop m ++ t := htp.trans hpre
  have h2 : pat.drop m <+: pat.drop m ++ t := List.prefix_append _ _
  have hlen : (pat.take (pat.length - m)).length = (pat.drop m).length := by
    rw [List.length_take, List.length_drop]
    omega
  have h3 : pat.take (pat.length - m) <+: pat.drop m :=
    List.prefix_of_prefix_length_le h1 h2 (le_of_eq hlen)
  exact hu m hmL hm0 (h3.eq_of_length hlen)

theorem countAux_eq_occCount {pat : List Char} (hu : Unbordered pat) (hne : pat ≠ []) :
    ∀ (s : List Char) (k : ℕ), (∀ j, j < k → ¬ pat.isPrefixOf (s.drop j)) →
      countAux pat k s = occCount pat s := by
  intro s
  induction s with
  | nil =>
    intro k _
    cases k <;> rfl
  | cons c rest ih =>
    intro k hk
    cases k with
    | succ k' =>
      have h0 : ¬ pat.isPrefixOf (c :: rest) := by
        have := hk 0 (Nat.succ_pos _)
        simpa using this
      have hshift : ∀ j, j < k' → ¬ pat.isPrefixOf (rest.drop j) := by
        intro j hj
        have := hk (j + 1) (by omega)
        simpa using this
      calc countAux pat (k' + 1) (c :: rest) = countAux pat k' rest := by
            simp [countAux]
        _ = occCount pat rest := ih k' hshift
        _ = occCount pat (c :: rest) := by simp [occCount, h0]
    | zero =>
      by_cases hp : pat.isPrefixOf (c :: rest)
      · have hpre : pat <+: (c :: rest) := by rwa [ List.isPrefixOf_iff_prefix] at hp
        obtain ⟨t, ht⟩ := hpre
        have hLpos : 0 < pat.length := List.length_pos.mpr hne
        have hnomatch : ∀ j, j < pat.length - 1 → ¬ pat.isPrefixOf (rest.drop j) := by
          intro j hj hpj
          have hpj' : pat <+: rest.drop j := by rwa [ List.isPrefixOf_iff_prefix] at hpj
          have hdrop : rest.drop j = pat.drop (j + 1) ++ t := by
            have h1 : (c :: rest).drop (j + 1) = rest.drop j := List.drop_succ_cons ..
            rw [← h1, ← ht, List.drop_append_of_le_length (by omega)]
          rw [hdrop] at hpj'
          exact not_prefix_of_unbordered hu (Nat.succ_pos j) (by omega) t hpj'
        calc countAux pat 0 (c :: rest)
            = 1 + countAux pat (pat.length - 1) rest := by
              simp [countAux, hp]
          _ = 1 + occCount pat rest := by rw [ih _ hnomatch]
          _ = occCount pat (c :: rest) := by simp [occCount, hp]
      · calc countAux pat 0 (c :: rest) = countAux pat 0 rest := by
              simp [countAux, hp]
          _ = occCount pat rest := ih 0 (by omega)
          _ = occCount pat (c :: rest) := by simp [occCount, hp]

/-- Claim C4 (amended): on the success path (exit status 0) the recorded
`warnings` is the number of positions of the concatenated stdout+stderr
stream at which the exact, case-sensitive substring `"warning"` occurs
(`str.count` is case-sensitive; differently-capitalised variants are not
counted — see the counterexample). -/
theorem c4_warning_count (σ : List (List Char) → List (List Char))
    (model contract : String) (e : ℕ) (out err : List Char)
    (r : ArtifactResult) (hr : r = test_contract σ model contract e (.completed 0 out err)) :
    r.warnings = occCount "warning".toList (out ++ err) := by
  subst hr
  have hT : test_contract σ model contract e (.completed 0 out err) =
      scorePhase (extractPhase σ (initResult model contract e) 0 (out ++ err)) := rfl
  rw [hT]
  rw [(scorePhase_preserved _).2.2.2.2.2.2.1,
    (extractPhase_pos rfl σ (initResult model contract e) (out ++ err)).2.2.1]
  exact countAux_eq_occCount warning_unbordered (by decide) (out ++ err) 0 (by omega)

/-- Witness for C4: an output containing two lowercase `warning` tokens and a
capitalised `Warning` evaluates to exactly 2 counted positions. -/
theorem c4_witness :
    (test_contract List.dedup "solmover" "5_counter" 14
      (.completed 0 "warning: one Warning: two warning: three".toList [])).warnings =
        occCount "warning".toList ("warning: one Warning: two warning: three".toList ++ []) ∧
    occCount "warning".toList ("warning: one Warning: two warning: three".toList ++ []) = 2 := by
  exact ⟨c4_warning_count List.dedup "solmover" "5_counter" 14
    "warning: one Warning: two warning: three".toList [] _ rfl, by decide⟩

/-- Claim C4 counterexample: on the success path with output
`"Warning: unused variable"`, the code records `warnings = 0` (Python's
`str.count` is case-sensitive), while the claim's case-insensitive count of
`"warning"` is 1. -/
theorem c4_counterexample :
    (test_contract List.dedup "solmover" "5_counter" 14
      (.completed 0 "Warning: unused variable".toList [])).warnings = 0 ∧
    countSubstrCI "warning".toList ("Warning: unused variable".toList ++ []) = 1 ∧
    (test_contract List.dedup "solmover" "5_counter" 14
      (.completed 0 "Warning: unused variable".toList [])).warnings ≠
      countSubstrCI "warning".toList ("Warning: unused variable".toList ++ []) := by
  refine ⟨by decide, by decide, by decide⟩

/-! ## C6: the test-summary line -/

theorem matchSummaryAt_nil : matchSummaryAt [] = none := rfl

theorem searchSummary_eq_some_of {s : List Char} {i : ℕ} {t : ℕ × ℕ × ℕ}
    (hm : matchSummaryAt (s.drop i) = some t)
    (hnone : ∀ j, j < i → matchSummaryAt (s.drop j) = none) :
    searchSummary s = some t := by
  induction i generalizing s with
  | zero =>
    cases s with
    | nil => exact absurd (matchSummaryAt_nil.symm.trans hm) (by simp)
    | cons c rest =>
      simp only [List.drop_zero] at hm
      simp [searchSummary, hm]
  | succ i' ih =>
    cases s with
    | nil => exact absurd (matchSummaryAt_nil.symm.trans (by simpa using hm)) (by simp)
    | cons c rest =>
      have h0 : matchSummaryAt (c :: rest) = none := by
        have := hnone 0 (Nat.succ_pos _)
        simpa using this
      have htail : searchSummary (c :: rest) = searchSummary rest := by
        simp [searchSummary, h0]
      rw [htail]
      refine ih (by simpa using hm) ?_
      intro j hj
      have := hnone (j + 1) (by omega)
      simpa using this

theorem searchSummary_eq_none_of {s : List Char}
    (h : ∀ i, matchSummaryAt (s.drop i) = none) : searchSummary s = none := by
  induction s with
  | nil => rfl
  | cons c rest ih =>
    have h0 : matchSummaryAt (c :: rest) = none := by simpa using h 0
    have : searchSummary (c :: rest) = searchSummary rest := by
      simp [searchSummary, h0]
    rw [this]
    refine ih ?_
    intro i
    simpa using h (i + 1)

/-- Claim C6 (amended): on the success path the extractor takes `tests_total`
and `tests_passed` from the first position of the combined output at which
the fixed pattern `Test result: OK. Total tests: <N>; passed: <P>; failed:
<F>` matches — the status word is the literal `OK`, not arbitrary (see the
counterexample); if the pattern matches nowhere, both counts stay `0` (zero
counts, not an error). -/
theorem c6_summary_parsing (σ : List (List Char) → List (List Char))
    (model contract : String) (e : ℕ) (out err : List Char)
    (r : ArtifactResult) (hr : r = test_contract σ model contract e (.completed 0 out err)) :
    (∀ i n p f, matchSummaryAt ((out ++ err).drop i) = some (n, p, f) →
      (∀ j, j < i → matchSummaryAt ((out ++ err).drop j) = none) →
      r.tests_total = n ∧ r.tests_passed = p) ∧
    ((∀ i, matchSummaryAt ((out ++ err).drop i) = none) →
      r.tests_passed = 0 ∧ r.tests_total = 0) := by
  subst hr
  have hT : test_contract σ model contract e (.completed 0 out err) =
      scorePhase (extractPhase σ (initResult model contract e) 0 (out ++ err)) := rfl
  rw [hT]
  have hpre := scorePhase_preserved (extractPhase σ (initResult model contract e) 0 (out ++ err))
  constructor
  · intro i n p f hm hnone
    have hs : searchSummary (out ++ err) = some (n, p, f) := searchSummary_eq_some_of hm hnone
    obtain ⟨hp, hn⟩ := extractPhase_pos_passed rfl hs σ (initResult model contract e)
    exact ⟨hpre.2.2.2.2.1.trans hn, hpre.2.2.2.1.trans hp⟩
  · intro hnone
    have hs : searchSummary (out ++ err) = none := searchSummary_eq_none_of hnone
    obtain ⟨hp, hn⟩ := extractPhase_pos_nosummary rfl hs σ (initResult model contract e)
    exact ⟨hpre.2.2.2.1.trans hp, hpre.2.2.2.2.1.trans hn⟩

/-- Witness for C6: the pattern matches at position 0 of a concrete output and
the parsed counts land in the result. -/
theorem c6_witness :
    (test_contract List.dedup "claude-4.5-sonnet" "3_todo_list" 14
      (.completed 0 "Test result: OK. Total tests: 3; passed: 2; failed: 1".toList [])).tests_total = 3 ∧
    (test_contract List.dedup "claude-4.5-sonnet" "3_todo_list" 14
      (.completed 0 "Test result: OK. Total tests: 3; passed: 2; failed: 1".toList [])).tests_passed = 2 := by
  exact (c6_summary_parsing List.dedup "claude-4.5-sonnet" "3_todo_list" 14
      "Test result: OK. Total tests: 3; passed: 2; failed: 1".toList [] _ rfl).1
    0 3 2 1 (by decide) (by omega)

/-- Attempt to match the claim's pattern `Test result: <status>. Total tests:
<N>; passed: <P>; failed: <F>` — with an arbitrary nonempty status word —
anchored at the start of `s`.  Written from the claim's words, for comparison
with the source's literal-`OK` pattern. -/
def matchSummaryAnyAt (s : List Char) : Option (ℕ × ℕ × ℕ) := do
  let s1 ← dropLit "Test result: ".toList s
  let w := s1.takeWhile (fun ch => ch != '.')
  if w.isEmpty then none
  else
    let s2 := s1.dropWhile (fun ch => ch != '.')
    let s3 ← dropLit ". Total tests: ".toList s2
    let (n, s4) ← readNat s3
    let s5 ← dropLit "; passed: ".toList s4
    let (p, s6) ← readNat s5
    let s7 ← dropLit "; failed: ".toList s6
    let (f, _) ← readNat s7
    pure (n, p, f)

/-- First match of the claim's any-status-word pattern over all start
positions. -/
def searchSummaryAny : List Char → Option (ℕ × ℕ × ℕ)
  | [] => none
  | c :: rest =>
    match matchSummaryAnyAt (c :: rest) with
    | some r => some r
    | none => searchSummaryAny rest

/-- Claim C6 counterexample: the output line
`"Test result: FAILED. Total tests: 5; passed: 3; failed: 2"` matches the
claim's any-status-word pattern with `P = 3`, but the code's regex demands the
literal `OK`, so the produced result keeps `tests_passed = 0`. -/
theorem c6_counterexample :
    searchSummaryAny "Test result: FAILED. Total tests: 5; passed: 3; failed: 2".toList =
      some (5, 3, 2) ∧
    (test_contract List.dedup "gpt-5.2-pro" "2_guestbook" 12
      (.completed 0 "Test result: FAILED. Total tests: 5; passed: 3; failed: 2".toList [])).tests_passed = 0 ∧
    (test_contract List.dedup "gpt-5.2-pro" "2_guestbook" 12
      (.completed 0 "Test result: FAILED. Total tests: 5; passed: 3; failed: 2".toList [])).tests_passed ≠ 3 := by
  refine ⟨by decide, by decide, by decide⟩

/-! ## C5: the extracted error codes -/

theorem dropLit_eq_append : ∀ (pat s r : List Char), dropLit pat s = some r → s = pat ++ r := by
  intro pat
  induction pat with
  | nil =>
    intro s r h
    simp only [dropLit, Option.some.injEq] at h
    simp [h]
  | cons p ps ih =>
    intro s r h
    cases s with
    | nil => simp [dropLit] at h
    | cons c cs =>
      simp only [dropLit] at h
      split at h
      · rename_i hc
        rw [hc]
        simpa using ih cs r h
      · exact absurd h (by simp)

theorem matchErrorAt_startsWith {s : List Char} {x : List Char × List Char}
    (h : matchErrorAt s = some x) : "error[E".toList.isPrefixOf s = true := by
  unfold matchErrorAt at h
  simp only [Option.bind_eq_bind, Option.bind_eq_some] at h
  obtain ⟨s1, h1, -⟩ := h
  have := dropLit_eq_append _ _ _ h1
  rw [ List.isPrefixOf_iff_prefix]
  exact ⟨s1, this.symm⟩

theorem findallAux_nil_of_not_contains :
    ∀ (s : List Char) (k : ℕ), containsSub "error[E".toList s = false → findallAux k s = [] := by
  intro s
  induction s with
  | nil =>
    intro k _
    cases k <;> rfl
  | cons c rest ih =>
    intro k hcon
    simp only [containsSub, Bool.or_eq_false_iff] at hcon
    cases k with
    | succ k' =>
      have : findallAux (k' + 1) (c :: rest) = findallAux k' rest := by simp [findallAux]
      rw [this]
      exact ih k' hcon.2
    | zero =>
      cases hm : matchErrorAt (c :: rest) with
      | some x =>
        have hpf := matchErrorAt_startsWith hm
        rw [hpf] at hcon
        exact absurd hcon.1 (by simp)
      | none =>
        have : findallAux 0 (c :: rest) = findallAux 0 rest := by simp [findallAux, hm]
        rw [this]
        exact ih 0 hcon.2

/-- First-appearance deduplication, following the claim's words ("the first 5
distinct codes in order of their first appearance").  Used only to compare
the claim against the source behaviour. -/
def firstDistinct (l : List (List Char)) : List (List Char) :=
  l.foldl (fun acc x => if x ∈ acc then acc else acc ++ [x]) []

/-- Claim C5 (amended): on the failure path the recorded `errors` list holds at
most 5 of the distinct `error[E<digits>]` tokens of the output — it is
duplicate-free, drawn from the matched tokens, of length `min 5 (#distinct)`,
and contains every distinct code when there are at most 5 — but its order
(and, beyond 5 distinct codes, its choice of 5) is the implementation-defined
enumeration order of Python's `set`, not the order of first appearance (see
the counterexample). -/
theorem c5_error_codes (σ : List (List Char) → List (List Char)) (hσ : SetEnum σ)
    (model contract : String) (e : ℕ) (rc : ℤ) (out err : List Char) (hrc : rc ≠ 0)
    (r : ArtifactResult) (hr : r = test_contract σ model contract e (.completed rc out err)) :
    r.errors.Nodup ∧
    (∀ x ∈ r.errors, x ∈ findallCodes (out ++ err)) ∧
    r.errors.length = min 5 (findallCodes (out ++ err)).dedup.length ∧
    ((findallCodes (out ++ err)).dedup.length ≤ 5 →
      ∀ x ∈ findallCodes (out ++ err), x ∈ r.errors) := by
  subst hr
  have hT : test_contract σ model contract e (.completed rc out err) =
      scorePhase (extractPhase σ (initResult model contract e) rc (out ++ err)) := rfl
  rw [hT]
  rw [(scorePhase_preserved _).2.2.2.2.2.2.2.1,
    (extractPhase_neg hrc σ (initResult model contract e) (out ++ err)).2.2.2.2.2.2.2.2.2]
  have hperm := hσ (findallCodes (out ++ err))
  split
  · constructor
    · exact ((List.nodup_dedup _).perm hperm.symm).sublist (List.take_sublist _ _)
    · refine ⟨?_, ?_, ?_⟩
      · intro x hx
        have hx2 : x ∈ σ (findallCodes (out ++ err)) := List.take_subset _ _ hx
        exact List.mem_dedup.mp (hperm.mem_iff.mp hx2)
      · rw [List.length_take, hperm.length_eq]
      · intro hle x hx
        have hfull : (σ (findallCodes (out ++ err))).take 5 = σ (findallCodes (out ++ err)) :=
          List.take_of_length_le (by rw [hperm.length_eq]; exact hle)
        rw [hfull]
        exact hperm.mem_iff.mpr (List.mem_dedup.mpr hx)
  · rename_i hcon
    have hnil : findallCodes (out ++ err) = [] := by
      have := findallAux_nil_of_not_contains (out ++ err) 0 (by
        cases hc : containsSub "error[E".toList (out ++ err) with
        | false => rfl
        | true => exact absurd hc hcon)
      exact this
    rw [hnil]
    refine ⟨by simp [initResult], by simp [initResult], by simp [initResult], by simp [initResult]⟩

/-- Witness for C5: a concrete failure output with a repeated code and two
distinct codes yields a duplicate-free list of length `min 5 2 = 2`. -/
theorem c5_witness :
    (test_contract List.dedup "solmover" "4_simple_coin" 12
      (.completed 1 "error[E03002] x error[E03002] y error[E04007]".toList [])).errors.Nodup ∧
    (test_contract List.dedup "solmover" "4_simple_coin" 12
      (.completed 1 "error[E03002] x error[E03002] y error[E04007]".toList [])).errors.length =
      min 5 (findallCodes ("error[E03002] x error[E03002] y error[E04007]".toList ++ [])).dedup.length ∧
    min 5 (findallCodes ("error[E03002] x error[E03002] y error[E04007]".toList ++ [])).dedup.length = 2 := by
  have h := c5_error_codes List.dedup (fun l => List.Perm.refl _) "solmover" "4_simple_coin"
    12 1 "error[E03002] x error[E03002] y error[E04007]".toList [] (by decide) _ rfl
  exact ⟨h.1, h.2.2.1, by decide⟩

/-- Claim C5 counterexample: `list(set(...))` may enumerate the distinct codes
in any order — the enumeration `fun l => l.dedup.reverse` is a legitimate set
enumeration, yet on an output whose codes appear in the order `E03002, E04007`
it records them as `[E04007, E03002]`, not in order of first appearance as the
claim demands. -/
theorem c5_counterexample :
    SetEnum (fun l => l.dedup.reverse) ∧
    (test_contract (fun l => l.dedup.reverse) "solmover" "4_simple_coin" 12
        (.completed 1 "error[E03002] then error[E04007]".toList [])).errors =
      ["error[E04007]".toList, "error[E03002]".toList] ∧
    (firstDistinct (findallCodes ("error[E03002] then error[E04007]".toList ++ []))).take 5 =
      ["error[E03002]".toList, "error[E04007]".toList] ∧
    (test_contract (fun l => l.dedup.reverse) "solmover" "4_simple_coin" 12
        (.completed 1 "error[E03002] then error[E04007]".toList [])).errors ≠
      (firstDistinct (findallCodes ("error[E03002] then error[E04007]".toList ++ []))).take 5 :=
  ⟨fun l => List.reverse_perm l.dedup, by decide, by decide, by decide⟩

/-! ## C2: the Wilson score interval

`scipy.stats.norm.ppf((1 + confidence) / 2)` and `np.sqrt` are external
library calls on floats; they are taken as parameters: `z` is an arbitrary
nonnegative real and `sqrt` an arbitrary function agreeing with the real
square root on nonnegative inputs. -/

/-- A function that behaves as the square root on nonnegative inputs
(`np.sqrt` is only ever applied to a nonnegative argument here). -/
def SqrtFn (sqrt : ℝ → ℝ) : Prop := ∀ x, 0 ≤ x → 0 ≤ sqrt x ∧ sqrt x * sqrt x = x

/-- `wilson_score_interval` from the source, over exact reals (noncomputable
only because real-number arithmetic is; the modelled code computes with
floats). -/
noncomputable def wilson_score_interval (sqrt : ℝ → ℝ) (z : ℝ) (successes trials : ℕ) : ℝ × ℝ × ℝ :=
  if trials = 0 then (0, 0, 0)
  else
    let p : ℝ := (successes : ℝ) / (trials : ℝ)
    let denominator : ℝ := 1 + z ^ 2 / (trials : ℝ)
    let center : ℝ := (p + z ^ 2 / (2 * (trials : ℝ))) / denominator
    let margin : ℝ :=
      z * sqrt (p * (1 - p) / (trials : ℝ) + z ^ 2 / (4 * (trials : ℝ) ^ 2)) / denominator
    let lower : ℝ := max 0 (center - margin)
    let upper : ℝ := min 1 (center + margin)
    (p, lower, upper)

theorem abs_le_of_sq_le_sq_of_nonneg {a b : ℝ} (ha : 0 ≤ a) (h : b ^ 2 ≤ a ^ 2) :
    |b| ≤ a := by
  by_contra hcon
  push_neg at hcon
  nlinarith [sq_abs b, abs_nonneg b]

/-- The Wilson centre lies within one margin of the point estimate: the
algebraic heart of the interval's correctness. -/
theorem wilson_bounds_core {P z n S : ℝ} (hP0 : 0 ≤ P) (hP1 : P ≤ 1) (hz : 0 ≤ z)
    (hn0 : 0 < n) (hS0 : 0 ≤ S)
    (hSS : S * S = P * (1 - P) / n + z ^ 2 / (4 * n ^ 2)) :
    (P + z ^ 2 / (2 * n)) / (1 + z ^ 2 / n) - z * S / (1 + z ^ 2 / n) ≤ P ∧
    P ≤ (P + z ^ 2 / (2 * n)) / (1 + z ^ 2 / n) + z * S / (1 + z ^ 2 / n) := by
  have hD0 : (0 : ℝ) < 1 + z ^ 2 / n := by positivity
  have hPP : 0 ≤ P * (1 - P) := mul_nonneg hP0 (by linarith)
  have habs : |z ^ 2 * (1 - 2 * P) / (2 * n)| ≤ z * S := by
    apply abs_le_of_sq_le_sq_of_nonneg (mul_nonneg hz hS0)
    have hzS : (z * S) ^ 2 = z ^ 2 * (P * (1 - P) / n) + z ^ 2 * (z ^ 2 / (4 * n ^ 2)) := by
      calc (z * S) ^ 2 = z ^ 2 * (S * S) := by ring
        _ = z ^ 2 * (P * (1 - P) / n + z ^ 2 / (4 * n ^ 2)) := by rw [hSS]
        _ = z ^ 2 * (P * (1 - P) / n) + z ^ 2 * (z ^ 2 / (4 * n ^ 2)) := by ring
    rw [hzS, div_pow, div_le_iff (by positivity : (0 : ℝ) < (2 * n) ^ 2)]
    have hexp : (z ^ 2 * (P * (1 - P) / n) + z ^ 2 * (z ^ 2 / (4 * n ^ 2))) * (2 * n) ^ 2 =
        4 * n * (z ^ 2 * (P * (1 - P))) + z ^ 2 * z ^ 2 := by
      field_simp
      ring
    have hexp2 : (z ^ 2 * (1 - 2 * P)) ^ 2 = z ^ 2 * z ^ 2 * (1 - 4 * (P * (1 - P))) := by
      ring
    rw [hexp, hexp2]
    nlinarith [mul_nonneg (mul_nonneg hn0.le (sq_nonneg z)) hPP,
      mul_nonneg (mul_nonneg (sq_nonneg z) (sq_nonneg z)) hPP]
  have hCP : (P + z ^ 2 / (2 * n)) / (1 + z ^ 2 / n) - P =
      (z ^ 2 * (1 - 2 * P) / (2 * n)) / (1 + z ^ 2 / n) := by
    field_simp
    ring
  obtain ⟨h1, h2⟩ := abs_le.mp habs
  constructor
  · have hkey : (P + z ^ 2 / (2 * n)) / (1 + z ^ 2 / n) - P ≤ z * S / (1 + z ^ 2 / n) := by
      rw [hCP]
      exact (div_le_div_right hD0).mpr h2
    linarith
  · have hkey : P - (P + z ^ 2 / (2 * n)) / (1 + z ^ 2 / n) ≤ z * S / (1 + z ^ 2 / n) := by
      rw [show P - (P + z ^ 2 / (2 * n)) / (1 + z ^ 2 / n) =
        -((P + z ^ 2 / (2 * n)) / (1 + z ^ 2 / n) - P) by ring, hCP, ← neg_div]
      exact (div_le_div_right hD0).mpr (by linarith)
    linarith

/-- Claim C2: `wilson_score_interval` returns `(0, 0, 0)` for zero trials, and
for `n ≥ 1` returns `(p, lower, upper)` with `p = s/n`,
`lower = max 0 (center - margin)` and `upper = min 1 (center + margin)` for
the Wilson centre and margin, satisfying `0 ≤ lower ≤ p ≤ upper ≤ 1`
(for a success count `s` out of `n` trials, i.e. `s ≤ n`). -/
theorem c2_wilson_interval (sqrt : ℝ → ℝ) (z : ℝ) (s n : ℕ)
    (hsq : SqrtFn sqrt) (hz : 0 ≤ z) (hsn : s ≤ n) (hn : 1 ≤ n) :
    wilson_score_interval sqrt z s 0 = (0, 0, 0) ∧
    (wilson_score_interval sqrt z s n).1 = (s : ℝ) / (n : ℝ) ∧
    (wilson_score_interval sqrt z s n).2.1 =
      max 0 (((s : ℝ) / (n : ℝ) + z ^ 2 / (2 * (n : ℝ))) / (1 + z ^ 2 / (n : ℝ)) -
        z * sqrt ((s : ℝ) / (n : ℝ) * (1 - (s : ℝ) / (n : ℝ)) / (n : ℝ) +
          z ^ 2 / (4 * (n : ℝ) ^ 2)) / (1 + z ^ 2 / (n : ℝ))) ∧
    (wilson_score_interval sqrt z s n).2.2 =
      min 1 (((s : ℝ) / (n : ℝ) + z ^ 2 / (2 * (n : ℝ))) / (1 + z ^ 2 / (n : ℝ)) +
        z * sqrt ((s : ℝ) / (n : ℝ) * (1 - (s : ℝ) / (n : ℝ)) / (n : ℝ) +
          z ^ 2 / (4 * (n : ℝ) ^ 2)) / (1 + z ^ 2 / (n : ℝ))) ∧
    0 ≤ (wilson_score_interval sqrt z s n).2.1 ∧
    (wilson_score_interval sqrt z s n).2.1 ≤ (wilson_score_interval sqrt z s n).1 ∧
    (wilson_score_interval sqrt z s n).1 ≤ (wilson_score_interval sqrt z s n).2.2 ∧
    (wilson_score_interval sqrt z s n).2.2 ≤ 1 := by
  have hne : n ≠ 0 := by omega
  have hn0 : (0 : ℝ) < (n : ℝ) := by
    have := Nat.pos_of_ne_zero hne
    exact_mod_cast this
  have hzero : wilson_score_interval sqrt z s 0 = (0, 0, 0) := by
    unfold wilson_score_interval
    rw [if_pos rfl]
  have hweq : wilson_score_interval sqrt z s n =
      ((s : ℝ) / (n : ℝ),
       max 0 (((s : ℝ) / (n : ℝ) + z ^ 2 / (2 * (n : ℝ))) / (1 + z ^ 2 / (n : ℝ)) -
         z * sqrt ((s : ℝ) / (n : ℝ) * (1 - (s : ℝ) / (n : ℝ)) / (n : ℝ) +
           z ^ 2 / (4 * (n : ℝ) ^ 2)) / (1 + z ^ 2 / (n : ℝ))),
       min 1 (((s : ℝ) / (n : ℝ) + z ^ 2 / (2 * (n : ℝ))) / (1 + z ^ 2 / (n : ℝ)) +
         z * sqrt ((s : ℝ) / (n : ℝ) * (1 - (s : ℝ) / (n : ℝ)) / (n : ℝ) +
           z ^ 2 / (4 * (n : ℝ) ^ 2)) / (1 + z ^ 2 / (n : ℝ)))) := by
    unfold wilson_score_interval
    rw [if_neg hne]
  have hP0 : (0 : ℝ) ≤ (s : ℝ) / (n : ℝ) := by positivity
  have hP1 : (s : ℝ) / (n : ℝ) ≤ 1 := by
    rw [div_le_one hn0]
    exact_mod_cast hsn
  have hPP : (0 : ℝ) ≤ (s : ℝ) / (n : ℝ) * (1 - (s : ℝ) / (n : ℝ)) :=
    mul_nonneg hP0 (by linarith)
  have hE : (0 : ℝ) ≤ (s : ℝ) / (n : ℝ) * (1 - (s : ℝ) / (n : ℝ)) / (n : ℝ) +
      z ^ 2 / (4 * (n : ℝ) ^ 2) :=
    add_nonneg (div_nonneg hPP hn0.le) (by positivity)
  obtain ⟨hS0, hSS⟩ := hsq _ hE
  obtain ⟨hlo, hhi⟩ := wilson_bounds_core hP0 hP1 hz hn0 hS0 hSS
  refine ⟨hzero, by rw [hweq], by rw [hweq], by rw [hweq], ?_, ?_, ?_, ?_⟩
  · rw [hweq]
    exact le_max_left _ _
  · rw [hweq]
    exact max_le hP0 hlo
  · rw [hweq]
    exact le_min hP1 hhi
  · rw [hweq]
    exact min_le_left _ _

/-- Witness for C2 at `sqrt = Real.sqrt`, `z = 1.96`, 1 success in 2 trials. -/
theorem c2_witness :
    wilson_score_interval Real.sqrt (196/100) 1 0 = (0, 0, 0) ∧
    0 ≤ (wilson_score_interval Real.sqrt (196/100) 1 2).2.1 ∧
    (wilson_score_interval Real.sqrt (196/100) 1 2).2.1 ≤
      (wilson_score_interval Real.sqrt (196/100) 1 2).1 ∧
    (wilson_score_interval Real.sqrt (196/100) 1 2).1 ≤
      (wilson_score_interval Real.sqrt (196/100) 1 2).2.2 ∧
    (wilson_score_interval Real.sqrt (196/100) 1 2).2.2 ≤ 1 := by
  have h := c2_wilson_interval Real.sqrt (196/100) 1 2
    (fun x hx => ⟨Real.sqrt_nonneg x, Real.mul_self_sqrt hx⟩)
    (by norm_num) (by norm_num) (by norm_num)
  exact ⟨h.1, h.2.2.2.2.1, h.2.2.2.2.2.1, h.2.2.2.2.2.2.1, h.2.2.2.2.2.2.2⟩

/-! ## `perform_statistical_analysis` (C3, C7)

The scipy statistics themselves (`chi2_contingency`'s statistic,
`fisher_exact`'s p-value) are external float numerics, abstracted as
parameters; their *input validation*, which decides claim C3, is modelled
from scipy's documented behaviour. -/

/-- The per-model pooled pass/fail data of `perform_statistical_analysis`
(lines 238–248): `failed = total - passed` is a Python `int` and may be
negative; `rate` falls back to `0` when `total == 0`. -/
structure ModelData where
  passed : ℕ
  failed : ℤ
  total : ℕ
  rate : ℚ
deriving DecidableEq, Repr

/-- Pooled passed tests of a model over the result set. -/
def model_passed (results : List ArtifactResult) (m : String) : ℕ :=
  ((results.filter (fun r => r.model = m)).map (fun r => r.tests_passed)).sum

/-- Pooled expected tests of a model over the result set. -/
def model_total (results : List ArtifactResult) (m : String) : ℕ :=
  ((results.filter (fun r => r.model = m)).map (fun r => r.tests_expected)).sum

/-- `model_data[model]` from the source. -/
def model_data (results : List ArtifactResult) (m : String) : ModelData where
  passed := model_passed results m
  failed := (model_total results m : ℤ) - (model_passed results m : ℤ)
  total := model_total results m
  rate := if 0 < model_total results m then
      (model_passed results m : ℚ) / (model_total results m : ℚ)
    else 0

/-- Models `scipy.stats.chi2_contingency`'s input validation: the observed
table must be nonnegative, and the internally computed expected frequencies —
which contain a zero exactly when some row sum or column sum is zero — must
be free of zeros; either violation raises a `ValueError` before any statistic
is produced.  The statistic/p-value/dof on valid input are external numerics,
abstracted by the `stat` parameter. -/
def chi2_contingency (stat : List (ℤ × ℤ) → ℝ × ℝ × ℕ) (table : List (ℤ × ℤ)) :
    Except String (ℝ × ℝ × ℕ) :=
  if table.any (fun row => decide (row.1 < 0) || decide (row.2 < 0)) then
    Except.error "All values in `observed` must be nonnegative."
  else if table.any (fun row => decide (row.1 + row.2 = 0)) ||
      decide ((table.map Prod.fst).sum = 0) || decide ((table.map Prod.snd).sum = 0) then
    Except.error "The internally computed table of expected frequencies has a zero element."
  else
    Except.ok (stat table)

/-- One entry of the `pairwise` list (lines 268–273). -/
structure PairwiseComparison where
  model1 : String
  model2 : String
  diff : ℚ
  p_value : ℝ

/-- The index pairs visited by `for i, model1 in enumerate(models): for model2
in models[i+1:]`: every unordered pair once, ordered by first appearance. -/
def pairsOf : List α → List (α × α)
  | [] => []
  | x :: xs => (xs.map (fun y => (x, y))) ++ pairsOf xs

/-- The pairwise Fisher-exact comparisons (lines 258–273).  `fisher` abstracts
`scipy.stats.fisher_exact`'s two-sided p-value on the 2×2 table. -/
def pairwise_comparisons (fisher : ℤ → ℤ → ℤ → ℤ → ℝ)
    (md : String → ModelData) (models : List String) : List PairwiseComparison :=
  (pairsOf models).map (fun pr =>
    { model1 := pr.1
      model2 := pr.2
      diff := ((md pr.1).rate - (md pr.2).rate) * 100
      p_value := fisher ((md pr.1).passed : ℤ) (md pr.1).failed
        ((md pr.2).passed : ℤ) (md pr.2).failed })

/-- The record returned by `perform_statistical_analysis`. -/
structure StatAnalysis where
  chi_square : ℝ × ℝ × ℕ
  pairwise : List PairwiseComparison
  confidence_intervals : List (String × (ℝ × ℝ × ℝ))
  model_data : List (String × ModelData)

/-- `perform_statistical_analysis`: build the per-model pooled data, run the
chi-square test on the model×(pass, fail) table — a `ValueError` raised there
(modelled as `Except.error`) aborts the analysis — then the pairwise Fisher
comparisons and the Wilson confidence intervals (each scaled by 100). -/
noncomputable def perform_statistical_analysis (sqrtF : ℝ → ℝ) (z : ℝ)
    (stat : List (ℤ × ℤ) → ℝ × ℝ × ℕ) (fisher : ℤ → ℤ → ℤ → ℤ → ℝ)
    (models : List String) (results : List ArtifactResult) :
    Except String StatAnalysis :=
  let md := fun m => model_data results m
  let table := models.map (fun m => (((md m).passed : ℤ), (md m).failed))
  match chi2_contingency stat table with
  | Except.error e => Except.error e
  | Except.ok chi2res =>
    Except.ok
      { chi_square := chi2res
        pairwise := pairwise_comparisons fisher md models
        confidence_intervals := models.map (fun m =>
          let w := wilson_score_interval sqrtF z (md m).passed (md m).total
          (m, (w.1 * 100, w.2.1 * 100, w.2.2 * 100)))
        model_data := models.map (fun m => (m, md m)) }

/-! ## The per-model summary of `generate_markdown_table` (C8) -/

/-- The per-model summary row (lines 542–550): the average score, the
compilation rate and the pooled pass rate, the latter two as percentages. -/
structure ModelSummary where
  avg_score : ℚ
  compile_rate : ℚ
  total_passed : ℕ
  total_expected : ℕ
  avg_pass_rate : ℚ
deriving DecidableEq, Repr

/-- The summary-statistics row computed for one model. -/
def model_summary (results : List ArtifactResult) (m : String) : ModelSummary :=
  let model_results := results.filter (fun r => r.model = m)
  { avg_score := (model_results.map (fun r => r.total_score)).sum / (model_results.length : ℚ)
    compile_rate := ((model_results.filter (fun r => r.compiles)).length : ℚ) /
      (model_results.length : ℚ) * 100
    total_passed := (model_results.map (fun r => r.tests_passed)).sum
    total_expected := (model_results.map (fun r => r.tests_expected)).sum
    avg_pass_rate :=
      if 0 < (model_results.map (fun r => r.tests_expected)).sum then
        ((model_results.map (fun r => r.tests_passed)).sum : ℚ) /
          ((model_results.map (fun r => r.tests_expected)).sum : ℚ) * 100
      else 0 }

/-! ## `analyze_errors` (C9) -/

/-- Increment the counter of `key` in an insertion-ordered association list,
appending a fresh entry when absent — the behaviour of the Python dict
`error_by_type` (insertion-ordered since Python 3.7). -/
def bump (key : List Char) : List (List Char × ℕ) → List (List Char × ℕ)
  | [] => [(key, 1)]
  | (k, v) :: rest => if k = key then (k, v + 1) :: rest else (k, v) :: bump key rest

/-- The global `error_by_type` totals, in insertion order (first-encounter
order while iterating the results and each result's error list). -/
def tallyErrors (results : List ArtifactResult) : List (List Char × ℕ) :=
  results.foldl (fun acc r => r.errors.foldl (fun acc2 e => bump e acc2) acc) []

/-- `sorted(error_by_type.items(), key=..., reverse=True)`: Python's `sorted`
is a stable sort; any stable sort by the same key produces the same list, so
it is modelled by insertion sort under the descending-count preorder. -/
def sorted_errors (results : List ArtifactResult) : List (List Char × ℕ) :=
  (tallyErrors results).insertionSort (fun a b => b.2 ≤ a.2)

/-- `dict(sorted_errors[:10])` — the stored top-10 table (the report then
displays the first 5 of it). -/
def analyze_errors_by_type (results : List ArtifactResult) : List (List Char × ℕ) :=
  (sorted_errors results).take 10

/-! ## Claim theorems about the statistics -/

theorem chi2_contingency_error_of_bad_row (stat : List (ℤ × ℤ) → ℝ × ℝ × ℕ)
    (table : List (ℤ × ℤ)) (row : ℤ × ℤ) (hmem : row ∈ table)
    (hrow : row.1 + row.2 = 0 ∨ row.1 < 0 ∨ row.2 < 0) :
    ∃ e, chi2_contingency stat table = Except.error e := by
  unfold chi2_contingency
  by_cases h1 : table.any (fun r => decide (r.1 < 0) || decide (r.2 < 0)) = true
  · rw [if_pos h1]
    exact ⟨_, rfl⟩
  · rw [if_neg h1]
    simp only [List.any_eq_true, Bool.or_eq_true, decide_eq_true_eq, not_exists] at h1
    have hsum : row.1 + row.2 = 0 := by
      rcases hrow with h | h | h
      · exact h
      · exact (h1 row ⟨hmem, Or.inl h⟩).elim
      · exact (h1 row ⟨hmem, Or.inr h⟩).elim
    have h2 : table.any (fun r => decide (r.1 + r.2 = 0)) = true :=
      List.any_eq_true.mpr ⟨row, hmem, by simp [hsum]⟩
    rw [if_pos (by simp [h2])]
    exact ⟨_, rfl⟩

/-- Claim C3: whenever some model has zero pooled trials, the statistical
analysis is rejected — the contingency table it would feed to the chi-square
test has a zero (or negative-entry) row, `chi2_contingency` raises before
producing a statistic, and the analysis returns no chi-square value,
confidence interval or pairwise test. -/
theorem c3_zero_trials_rejected (sqrtF : ℝ → ℝ) (z : ℝ)
    (stat : List (ℤ × ℤ) → ℝ × ℝ × ℕ) (fisher : ℤ → ℤ → ℤ → ℤ → ℝ)
    (models : List String) (results : List ArtifactResult)
    (m : String) (hm : m ∈ models) (h0 : model_total results m = 0) :
    ∃ e, perform_statistical_analysis sqrtF z stat fisher models results = Except.error e := by
  have hmem : (((model_data results m).passed : ℤ), (model_data results m).failed) ∈
      models.map (fun m' => (((model_data results m').passed : ℤ), (model_data results m').failed)) :=
    List.mem_map_of_mem _ hm
  have hrow : (((model_data results m).passed : ℤ), (model_data results m).failed).1 +
        (((model_data results m).passed : ℤ), (model_data results m).failed).2 = 0 ∨
      (((model_data results m).passed : ℤ), (model_data results m).failed).1 < 0 ∨
      (((model_data results m).passed : ℤ), (model_data results m).failed).2 < 0 := by
    by_cases hp : model_passed results m = 0
    · left
      simp [model_data, hp, h0]
    · right
      right
      have hppos : 0 < model_passed results m := Nat.pos_of_ne_zero hp
      simp only [model_data, h0]
      omega
  obtain ⟨e, he⟩ := chi2_contingency_error_of_bad_row stat _ _ hmem hrow
  refine ⟨e, ?_⟩
  unfold perform_statistical_analysis
  dsimp only
  rw [he]

/-- Witness for C3: a run with one model and no results (zero pooled trials)
is rejected. -/
theorem c3_witness :
    ∃ e, perform_statistical_analysis (fun x => x) 0 (fun _ => (0, 0, 0)) (fun _ _ _ _ => 0)
      ["solmover"] [] = Except.error e :=
  c3_zero_trials_rejected (fun x => x) 0 (fun _ => (0, 0, 0)) (fun _ _ _ _ => 0)
    ["solmover"] [] "solmover" (by simp) (by decide)

/-! ## C7: the pairwise comparisons -/

theorem mem_pairsOf {l : List α} {pr : α × α} (h : pr ∈ pairsOf l) :
    pr.1 ∈ l ∧ pr.2 ∈ l := by
  induction l with
  | nil => simp [pairsOf] at h
  | cons x xs ih =>
    simp only [pairsOf, List.mem_append, List.mem_map] at h
    rcases h with ⟨y, hy, hpr⟩ | h
    · rw [← hpr]
      exact ⟨List.mem_cons_self _ _, List.mem_cons_of_mem _ hy⟩
    · obtain ⟨h1, h2⟩ := ih h
      exact ⟨List.mem_cons_of_mem _ h1, List.mem_cons_of_mem _ h2⟩

theorem countP_eq_one_of_nodup [DecidableEq α] {l : List α} (h : l.Nodup) {b : α}
    (hb : b ∈ l) : l.countP (fun y => decide (y = b)) = 1 := by
  induction l with
  | nil => simp at hb
  | cons x xs ih =>
    obtain ⟨hx, hxs⟩ := List.nodup_cons.mp h
    rw [List.countP_cons]
    rcases List.mem_cons.mp hb with heq | hbxs
    · have h0 : xs.countP (fun y => decide (y = b)) = 0 := by
        rw [List.countP_eq_zero]
        intro y hy
        simp only [decide_eq_true_eq]
        intro hyb
        rw [heq] at hyb
        exact hx (hyb ▸ hy)
      rw [h0, heq]
      simp
    · have hxb : x ≠ b := fun hh => hx (hh ▸ hbxs)
      rw [ih hxs hbxs]
      simp [hxb]

theorem pairsOf_pair_count [DecidableEq α] {l : List α} (hnd : l.Nodup) {a b : α}
    (ha : a ∈ l) (hb : b ∈ l) (hab : a ≠ b) :
    (pairsOf l).countP (fun pr => decide (pr = (a, b)) || decide (pr = (b, a))) = 1 := by
  induction l with
  | nil => simp at ha
  | cons x xs ih =>
    obtain ⟨hx, hxs⟩ := List.nodup_cons.mp hnd
    rw [show pairsOf (x :: xs) = (xs.map (fun y => (x, y))) ++ pairsOf xs from rfl,
      List.countP_append, List.countP_map]
    by_cases hxa : x = a
    · have hbxs : b ∈ xs := by
        rcases List.mem_cons.mp hb with hh | hh
        · exact absurd (hh.trans hxa) (Ne.symm hab)
        · exact hh
      have hmapc : xs.countP
          ((fun pr => decide (pr = (a, b)) || decide (pr = (b, a))) ∘ fun y => (x, y)) = 1 := by
        have heq : xs.countP
            ((fun pr => decide (pr = (a, b)) || decide (pr = (b, a))) ∘ fun y => (x, y)) =
            xs.countP (fun y => decide (y = b)) := by
          apply List.countP_congr
          intro y _
          simp only [Function.comp_apply, Bool.or_eq_true, decide_eq_true_eq]
          constructor
          · rintro (h1 | h1)
            · exact congrArg Prod.snd h1
            · exact absurd (hxa.symm.trans (congrArg Prod.fst h1)) hab
          · intro hyb
            left
            rw [hxa, hyb]
        rw [heq]
        exact countP_eq_one_of_nodup hxs hbxs
      have hrest : (pairsOf xs).countP
          (fun pr => decide (pr = (a, b)) || decide (pr = (b, a))) = 0 := by
        rw [List.countP_eq_zero]
        intro pr hpr
        simp only [Bool.or_eq_true, decide_eq_true_eq]
        rintro (h1 | h1)
        · have hmem : pr.1 ∈ xs := (mem_pairsOf hpr).1
          rw [h1] at hmem
          exact hx (by rw [hxa]; exact hmem)
        · have hmem : pr.2 ∈ xs := (mem_pairsOf hpr).2
          rw [h1] at hmem
          exact hx (by rw [hxa]; exact hmem)
      rw [hmapc, hrest]
    · by_cases hxb : x = b
      · have haxs : a ∈ xs := by
          rcases List.mem_cons.mp ha with hh | hh
          · exact absurd (hh.trans hxb) hab
          · exact hh
        have hmapc : xs.countP
            ((fun pr => decide (pr = (a, b)) || decide (pr = (b, a))) ∘ fun y => (x, y)) = 1 := by
          have heq : xs.countP
              ((fun pr => decide (pr = (a, b)) || decide (pr = (b, a))) ∘ fun y => (x, y)) =
              xs.countP (fun y => decide (y = a)) := by
            apply List.countP_congr
            intro y _
            simp only [Function.comp_apply, Bool.or_eq_true, decide_eq_true_eq]
            constructor
            · rintro (h1 | h1)
              · exact absurd (hxb.symm.trans (congrArg Prod.fst h1)) (Ne.symm hab)
              · exact congrArg Prod.snd h1
            · intro hya
              right
              rw [hxb, hya]
          rw [heq]
          exact countP_eq_one_of_nodup hxs haxs
        have hrest : (pairsOf xs).countP
            (fun pr => decide (pr = (a, b)) || decide (pr = (b, a))) = 0 := by
          rw [List.countP_eq_zero]
          intro pr hpr
          simp only [Bool.or_eq_true, decide_eq_true_eq]
          rintro (h1 | h1)
          · have hmem : pr.2 ∈ xs := (mem_pairsOf hpr).2
            rw [h1] at hmem
            exact hx (by rw [hxb]; exact hmem)
          · have hmem : pr.1 ∈ xs := (mem_pairsOf hpr).1
            rw [h1] at hmem
            exact hx (by rw [hxb]; exact hmem)
        rw [hmapc, hrest]
      · have haxs : a ∈ xs := by
          rcases List.mem_cons.mp ha with hh | hh
          · exact absurd hh.symm hxa
          · exact hh
        have hbxs : b ∈ xs := by
          rcases List.mem_cons.mp hb with hh | hh
          · exact absurd hh.symm hxb
          · exact hh
        have hmapc : xs.countP
            ((fun pr => decide (pr = (a, b)) || decide (pr = (b, a))) ∘ fun y => (x, y)) = 0 := by
          rw [List.countP_eq_zero]
          intro y _
          simp only [Function.comp_apply, Bool.or_eq_true, decide_eq_true_eq]
          rintro (h1 | h1)
          · exact hxa (congrArg Prod.fst h1)
          · exact hxb (congrArg Prod.fst h1)
        rw [hmapc, ih hxs haxs hbxs]

theorem perform_ok_pairwise (sqrtF : ℝ → ℝ) (z : ℝ)
    (stat : List (ℤ × ℤ) → ℝ × ℝ × ℕ) (fisher : ℤ → ℤ → ℤ → ℤ → ℝ)
    (models : List String) (results : List ArtifactResult) (analysis : StatAnalysis)
    (hok : perform_statistical_analysis sqrtF z stat fisher models results =
      Except.ok analysis) :
    analysis.pairwise = pairwise_comparisons fisher (fun m => model_data results m) models := by
  unfold perform_statistical_analysis at hok
  dsimp only at hok
  split at hok
  · cases hok
  · cases hok
    rfl

/-- Claim C7 (amended): the analysis produces exactly one PairwiseComparison per
unordered pair of distinct models; its `p_value` is the (two-sided)
`fisher_exact` value on the pair's pooled 2×2 pass/fail table, and its
`diff` is the *signed* pass-rate difference `(rate₁ - rate₂) · 100` in
percentage points — not the absolute difference (see the counterexample). -/
theorem c7_pairwise_comparisons (sqrtF : ℝ → ℝ) (z : ℝ)
    (stat : List (ℤ × ℤ) → ℝ × ℝ × ℕ) (fisher : ℤ → ℤ → ℤ → ℤ → ℝ)
    (models : List String) (results : List ArtifactResult) (analysis : StatAnalysis)
    (hok : perform_statistical_analysis sqrtF z stat fisher models results =
      Except.ok analysis)
    (hnd : models.Nodup) (a b : String) (ha : a ∈ models) (hb : b ∈ models) (hab : a ≠ b) :
    analysis.pairwise.countP (fun cmp =>
      decide (cmp.model1 = a ∧ cmp.model2 = b) ||
      decide (cmp.model1 = b ∧ cmp.model2 = a)) = 1 ∧
    (∀ cmp ∈ analysis.pairwise,
      cmp.p_value = fisher ((model_data results cmp.model1).passed : ℤ)
        (model_data results cmp.model1).failed
        ((model_data results cmp.model2).passed : ℤ)
        (model_data results cmp.model2).failed ∧
      cmp.diff = ((model_data results cmp.model1).rate -
        (model_data results cmp.model2).rate) * 100) := by
  rw [perform_ok_pairwise sqrtF z stat fisher models results analysis hok]
  constructor
  · unfold pairwise_comparisons
    rw [List.countP_map]
    refine Eq.trans (List.countP_congr ?_) (pairsOf_pair_count hnd ha hb hab)
    intro pr _
    simp [Function.comp, Prod.ext_iff]
  · intro cmp hcmp
    unfold pairwise_comparisons at hcmp
    simp only [List.mem_map] at hcmp
    obtain ⟨pr, -, hpr⟩ := hcmp
    rw [← hpr]
    exact ⟨rfl, rfl⟩

/-- Witness for C7: two models with one result each produce a valid analysis
holding exactly one comparison for the unordered pair. -/
theorem c7_witness :
    ∃ analysis,
      perform_statistical_analysis (fun x => x) 0 (fun _ => (0, 0, 0)) (fun _ _ _ _ => 0)
        ["solmover", "gemini-2.5"]
        [initResult "solmover" "0_hello_world" 1,
         { initResult "gemini-2.5" "0_hello_world" 1 with tests_passed := 1 }] =
        Except.ok analysis ∧
      analysis.pairwise.countP (fun cmp =>
        decide (cmp.model1 = "solmover" ∧ cmp.model2 = "gemini-2.5") ||
        decide (cmp.model1 = "gemini-2.5" ∧ cmp.model2 = "solmover")) = 1 := by
  obtain ⟨A, hA⟩ : ∃ A,
      perform_statistical_analysis (fun x => x) 0 (fun _ => (0, 0, 0)) (fun _ _ _ _ => 0)
        ["solmover", "gemini-2.5"]
        [initResult "solmover" "0_hello_world" 1,
         { initResult "gemini-2.5" "0_hello_world" 1 with tests_passed := 1 }] =
        Except.ok A := ⟨_, rfl⟩
  exact ⟨A, hA,
    (c7_pairwise_comparisons (fun x => x) 0 (fun _ => (0, 0, 0)) (fun _ _ _ _ => 0)
      ["solmover", "gemini-2.5"]
      [initResult "solmover" "0_hello_world" 1,
       { initResult "gemini-2.5" "0_hello_world" 1 with tests_passed := 1 }]
      A hA (by decide) "solmover" "gemini-2.5" (by simp) (by simp) (by decide)).1⟩

/-- Claim C7 counterexample: with model rates 0 and 1, the produced comparison's
`diff` is the signed value `-100`, not the absolute pass-rate difference
`100` that the claim demands. -/
theorem c7_counterexample :
    ((pairwise_comparisons (fun _ _ _ _ => (0 : ℝ))
        (fun m => model_data
          [initResult "solmover" "0_hello_world" 1,
           { initResult "gemini-2.5" "0_hello_world" 1 with tests_passed := 1 }] m)
        ["solmover", "gemini-2.5"]).map (fun cmp => cmp.diff)) = [-100] ∧
    |(model_data
        [initResult "solmover" "0_hello_world" 1,
         { initResult "gemini-2.5" "0_hello_world" 1 with tests_passed := 1 }] "solmover").rate -
      (model_data
        [initResult "solmover" "0_hello_world" 1,
         { initResult "gemini-2.5" "0_hello_world" 1 with tests_passed := 1 }] "gemini-2.5").rate| *
      100 = 100 ∧
    (-100 : ℚ) ≠ 100 := by
  refine ⟨?_, ?_, by norm_num⟩
  · simp only [pairwise_comparisons, pairsOf, List.map_nil, List.map_cons, List.append_nil,
      List.nil_append, List.map_append]
    simp [model_data, model_passed, model_total, initResult]
  · simp [model_data, model_passed, model_total, initResult]

/-! ## C8: the per-model summary -/

/-- Claim C8: for a model with at least one result, the summary row's
`avg_score` is the unweighted arithmetic mean of `total_score` (equivalently:
times the case count it gives back the plain sum — every case weighs the
same); `compile_rate` is the fraction of cases that compile, as a percentage;
and `avg_pass_rate` is the pooled ratio `sum(tests_passed) /
sum(tests_expected)` (as a percentage), not a mean of per-case rates. -/
theorem c8_model_summary (results : List ArtifactResult) (m : String)
    (hne : (results.filter (fun r => r.model = m)).length ≠ 0)
    (hexp : 0 < ((results.filter (fun r => r.model = m)).map (fun r => r.tests_expected)).sum) :
    (model_summary results m).avg_score =
      ((results.filter (fun r => r.model = m)).map (fun r => r.total_score)).sum /
        ((results.filter (fun r => r.model = m)).length : ℚ) ∧
    (model_summary results m).avg_score * ((results.filter (fun r => r.model = m)).length : ℚ) =
      ((results.filter (fun r => r.model = m)).map (fun r => r.total_score)).sum ∧
    (model_summary results m).compile_rate =
      (((results.filter (fun r => r.model = m)).filter (fun r => r.compiles)).length : ℚ) /
        ((results.filter (fun r => r.model = m)).length : ℚ) * 100 ∧
    (model_summary results m).total_passed =
      ((results.filter (fun r => r.model = m)).map (fun r => r.tests_passed)).sum ∧
    (model_summary results m).total_expected =
      ((results.filter (fun r => r.model = m)).map (fun r => r.tests_expected)).sum ∧
    (model_summary results m).avg_pass_rate =
      (((results.filter (fun r => r.model = m)).map (fun r => r.tests_passed)).sum : ℚ) /
        (((results.filter (fun r => r.model = m)).map (fun r => r.tests_expected)).sum : ℚ) *
        100 := by
  have hlen : ((results.filter (fun r => r.model = m)).length : ℚ) ≠ 0 :=
    Nat.cast_ne_zero.mpr hne
  refine ⟨rfl, ?_, rfl, rfl, rfl, ?_⟩
  · have h1 : (model_summary results m).avg_score =
        ((results.filter (fun r => r.model = m)).map (fun r => r.total_score)).sum /
          ((results.filter (fun r => r.model = m)).length : ℚ) := rfl
    rw [h1, div_mul_cancel₀ _ hlen]
  · show (if 0 < ((results.filter (fun r => r.model = m)).map (fun r => r.tests_expected)).sum
        then (((results.filter (fun r => r.model = m)).map (fun r => r.tests_passed)).sum : ℚ) /
          (((results.filter (fun r => r.model = m)).map (fun r => r.tests_expected)).sum : ℚ) * 100
        else 0) = _
    rw [if_pos hexp]

/-- Witness for C8: two cases for one model, scores 90 and 11, passed 9 of
pooled 23 expected tests. -/
theorem c8_witness :
    (model_summary
        [{ initResult "solmover" "0_hello_world" 11 with total_score := 90, tests_passed := 9 },
         { initResult "solmover" "1_tipjar" 12 with total_score := 11 }] "solmover").avg_score *
      (([{ initResult "solmover" "0_hello_world" 11 with total_score := 90, tests_passed := 9 },
          { initResult "solmover" "1_tipjar" 12 with total_score := 11 }].filter
        (fun r => r.model = "solmover")).length : ℚ) =
      (([{ initResult "solmover" "0_hello_world" 11 with total_score := 90, tests_passed := 9 },
          { initResult "solmover" "1_tipjar" 12 with total_score := 11 }].filter
        (fun r => r.model = "solmover")).map (fun r => r.total_score)).sum ∧
    (model_summary
        [{ initResult "solmover" "0_hello_world" 11 with total_score := 90, tests_passed := 9 },
         { initResult "solmover" "1_tipjar" 12 with total_score := 11 }] "solmover").avg_pass_rate =
      ((([{ initResult "solmover" "0_hello_world" 11 with total_score := 90, tests_passed := 9 },
           { initResult "solmover" "1_tipjar" 12 with total_score := 11 }].filter
          (fun r => r.model = "solmover")).map (fun r => r.tests_passed)).sum : ℚ) /
        ((([{ initResult "solmover" "0_hello_world" 11 with total_score := 90, tests_passed := 9 },
            { initResult "solmover" "1_tipjar" 12 with total_score := 11 }].filter
          (fun r => r.model = "solmover")).map (fun r => r.tests_expected)).sum : ℚ) * 100 := by
  have h := c8_model_summary
    [{ initResult "solmover" "0_hello_world" 11 with total_score := 90, tests_passed := 9 },
     { initResult "solmover" "1_tipjar" 12 with total_score := 11 }] "solmover"
    (by decide) (by decide)
  exact ⟨h.2.1, h.2.2.2.2.2⟩

/-! ## C9: the error ranking -/

/-- Claim C9: the error table is the tally of codes in first-encounter order,
stably sorted by descending global count — so ties keep their insertion
order: any two entries with equal counts that appear in a given order in the
tally appear in the same order in the ranking — and only the top 10 are
stored (the report displays the first 5 of those). -/
theorem c9_error_ranking (results : List ArtifactResult) :
    (sorted_errors results).Perm (tallyErrors results) ∧
    (sorted_errors results).Pairwise (fun a b => b.2 ≤ a.2) ∧
    (∀ a b : List Char × ℕ, a.2 = b.2 → [a, b].Sublist (tallyErrors results) →
      [a, b].Sublist (sorted_errors results)) ∧
    analyze_errors_by_type results = (sorted_errors results).take 10 := by
  refine ⟨List.perm_insertionSort _ _, ?_, ?_, rfl⟩
  · haveI : IsTotal (List Char × ℕ) (fun a b => b.2 ≤ a.2) := ⟨fun a b => le_total b.2 a.2⟩
    haveI : IsTrans (List Char × ℕ) (fun a b => b.2 ≤ a.2) :=
      ⟨fun _ _ _ h1 h2 => le_trans h2 h1⟩
    exact List.sorted_insertionSort _ _
  · intro a b hab hsub
    exact List.pair_sublist_insertionSort (le_of_eq hab.symm) hsub

/-- Witness for C9: on the claim's example counts (E03003 ↦ 16, E03002 ↦ 13,
E05001 ↦ 14) the ranked top 3 is E03003, E05001, E03002; and on a tally with
the tie E05001 ↦ 14, E04007 ↦ 14 the earlier-encountered code stays first. -/
theorem c9_witness :
    ((sorted_errors
        (List.replicate 16 { initResult "solmover" "0_hello_world" 11 with
          errors := ["error[E03003]".toList] } ++
         List.replicate 13 { initResult "solmover" "0_hello_world" 11 with
          errors := ["error[E03002]".toList] } ++
         List.replicate 14 { initResult "solmover" "0_hello_world" 11 with
          errors := ["error[E05001]".toList] })).map Prod.fst).take 3 =
      ["error[E03003]".toList, "error[E05001]".toList, "error[E03002]".toList] ∧
    (sorted_errors
        (List.replicate 16 { initResult "solmover" "0_hello_world" 11 with
          errors := ["error[E03003]".toList] } ++
         List.replicate 13 { initResult "solmover" "0_hello_world" 11 with
          errors := ["error[E03002]".toList] } ++
         List.replicate 14 { initResult "solmover" "0_hello_world" 11 with
          errors := ["error[E05001]".toList] })).Perm
      (tallyErrors
        (List.replicate 16 { initResult "solmover" "0_hello_world" 11 with
          errors := ["error[E03003]".toList] } ++
         List.replicate 13 { initResult "solmover" "0_hello_world" 11 with
          errors := ["error[E03002]".toList] } ++
         List.replicate 14 { initResult "solmover" "0_hello_world" 11 with
          errors := ["error[E05001]".toList] })) ∧
    [("error[E05001]".toList, 14), ("error[E04007]".toList, 14)].Sublist
      (sorted_errors
        (List.replicate 14 { initResult "solmover" "0_hello_world" 11 with
          errors := ["error[E05001]".toList] } ++
         List.replicate 14 { initResult "solmover" "0_hello_world" 11 with
          errors := ["error[E04007]".toList] })) := by
  refine ⟨by decide, (c9_error_ranking _).1, ?_⟩
  exact (c9_error_ranking
      (List.replicate 14 { initResult "solmover" "0_hello_world" 11 with
        errors := ["error[E05001]".toList] } ++
       List.replicate 14 { initResult "solmover" "0_hello_world" 11 with
        errors := ["error[E04007]".toList] })).2.2.1
    ("error[E05001]".toList, 14) ("error[E04007]".toList, 14) rfl (by decide)

end Benchmark
